import Mathlib

/-!
# Verification of `collate_project.py`

A shallow embedding of the project-collation tool: a directory tree is
modelled as a nested inductive (`Entry`), file contents as byte lists with
explicit stat/read error flags, and each Python function is translated to a
Lean definition of the same name.  Python `set`s of strings are modelled as
`List String` with membership semantics (only membership is ever consulted).
String lower-casing is modelled for ASCII (all configuration strings and all
inputs appearing in the claims are ASCII).  The float comparison
`control_bytes / len(chunk) > 0.30` is modelled exactly as the rational
comparison `10 * control_bytes > 3 * len`: for samples of at most 8192 bytes
the IEEE-double computation in the source and the rational comparison agree
(the nearest fraction `c/l` with `l ≤ 8192` on either side of `3/10` is more
than `1e-5` away, far beyond double rounding error of the literal `0.30`).
-/

/-- The on-disk state of one file: its bytes, plus flags saying whether a
`stat` call or a content `read`/`open` on it raises an exception.  The flags
let us model the `except`-clauses of the source. `st_size` is the byte
length. -/
structure FileData where
  bytes : List Nat
  statError : Bool := false
  readError : Bool := false
deriving DecidableEq, Repr

/-- A directory tree: files carry `FileData`, directories carry their
children in directory-listing order (the order `os.walk` reports them). -/
inductive Entry where
  | file (name : String) (data : FileData)
  | dir (name : String) (children : List Entry)

/-- ASCII lower-casing of one character, as `str.lower` acts on ASCII. -/
def lowerChar (c : Char) : Char :=
  if 65 ≤ c.toNat ∧ c.toNat ≤ 90 then Char.ofNat (c.toNat + 32) else c

/-- ASCII lower-casing of a string (`str.lower` restricted to ASCII). -/
def lowerStr (s : String) : String := ⟨s.data.map lowerChar⟩

/-- Lexicographic code-point comparison of character lists: the order Python
uses to compare `str` values. -/
def charListLe : List Char → List Char → Bool
  | [], _ => true
  | _ :: _, [] => false
  | a :: as, b :: bs =>
    if a.toNat < b.toNat then true
    else if b.toNat < a.toNat then false
    else charListLe as bs

/-- Python string `<=` (code-point lexicographic). -/
def pyStrLe (a b : String) : Bool := charListLe a.data b.data

/-- `name.startswith(".")`: the first character is a dot. -/
def startsWithDot (s : String) : Bool :=
  match s.data with
  | [] => false
  | c :: _ => c = '.'

/-- The final component of a path: everything after the last `/`
(`PurePath.name`). -/
def pathName (p : String) : String :=
  ⟨((p.data.reverse.takeWhile (fun c => c ≠ '/')).reverse)⟩

/-- `PurePath.suffix`: the substring of the name from its last dot onward,
provided that dot is neither the first nor the last character of the name;
otherwise the empty string.  In particular the suffix of `.gitignore` is
`""`, not `.gitignore`. -/
def pathSuffix (p : String) : String :=
  let name := (pathName p).data
  let r := name.reverse
  match r.findIdx? (fun c => c = '.') with
  | none => ""
  | some k => if 0 < k ∧ k + 1 < name.length then ⟨(r.take (k + 1)).reverse⟩ else ""

/-- `DEFAULT_EXCLUDED_DIRS` from the source. -/
def DEFAULT_EXCLUDED_DIRS : List String :=
  [".git", ".svn", ".hg", ".idea", ".vs", ".vscode", ".godot", ".import",
   ".cache", "target", "node_modules", "dist", "build", "out", "__pycache__"]

/-- `DEFAULT_ALLOWED_EXTENSIONS` from the source. -/
def DEFAULT_ALLOWED_EXTENSIONS : List String :=
  [".gd", ".tres", ".cfg", ".ini", ".shader", ".gdshader",
   ".rs", ".toml", ".md",
   ".h", ".hpp", ".c", ".cpp", ".cc", ".cxx",
   ".json", ".yml", ".yaml", ".js", ".ts", ".html", ".css",
   ".py", ".ps1", ".bat", ".sh", ".zsh",
   ".txt", ".csv", ".gitattributes", ".gitignore", ".editorconfig"]

/-- `LANG_FROM_EXTENSION` from the source, as an association list. -/
def LANG_FROM_EXTENSION : List (String × String) :=
  [(".gd", "gdscript"), (".rs", "rust"), (".toml", "toml"), (".lock", ""),
   (".md", "md"), (".h", "cpp"), (".hpp", "cpp"), (".c", "c"),
   (".cpp", "cpp"), (".cc", "cpp"), (".cxx", "cpp"), (".json", "json"),
   (".yml", "yaml"), (".yaml", "yaml"), (".js", "javascript"),
   (".ts", "typescript"), (".html", "html"), (".css", "css"),
   (".py", "python"), (".ps1", "powershell"), (".bat", "bat"),
   (".sh", "bash"), (".zsh", "bash"), (".tscn", ""), (".tres", ""),
   (".cfg", ""), (".ini", ""), (".shader", "glsl"), (".gdshader", "glsl"),
   (".import", ""), (".txt", ""), (".csv", ""), (".gitattributes", ""),
   (".gitignore", ""), (".editorconfig", "")]

/-- A byte counts toward the binary heuristic when `b < 9 or (13 < b < 32)`. -/
def isControlByte (b : Nat) : Bool := b < 9 || (13 < b && b < 32)

/-- `is_probably_binary`: sample up to `sampleBytes` bytes from the start;
any read failure yields `true`; a NUL byte yields `true`; an empty sample
yields `false`; otherwise `true` iff the control-byte fraction exceeds 0.30
(`10 * count > 3 * length` — exact for these sample sizes, see the header). -/
def is_probably_binary (fd : FileData) (sampleBytes : Nat) : Bool :=
  if fd.readError then true
  else
    let chunk := fd.bytes.take sampleBytes
    if chunk.contains 0 then true
    else if chunk.isEmpty then false
    else 10 * (chunk.countP isControlByte) > 3 * chunk.length

/-- `infer_lang_from_extension`: dictionary lookup on the lower-cased
suffix, defaulting to `""`. -/
def infer_lang_from_extension (filePath : String) : String :=
  match LANG_FROM_EXTENSION.lookup (lowerStr (pathSuffix filePath)) with
  | some tag => tag
  | none => ""

/-- `should_include_file`: the lower-cased suffix is a member of the allowed
extension set. -/
def should_include_file (filePath : String) (allowedExtensions : List String) : Bool :=
  allowedExtensions.contains (lowerStr (pathSuffix filePath))

/-- The extension set that exempts a hidden-by-name file from the
hidden-file rule (the literal set on line 139, compared without
lower-casing). -/
def hiddenFileSuffixExceptions : List String :=
  [".gitignore", ".gitattributes", ".editorconfig"]

/-- The directory-pruning test of `walk_project`'s inner loop: a directory
is kept unless its name is excluded, or it is hidden while `includeHidden`
is off.  The exclusion test comes first and does not look at hidden-ness. -/
def keepDirectory (excludedDirectories : List String) (includeHidden : Bool)
    (name : String) : Bool :=
  if excludedDirectories.contains name then false
  else if !includeHidden && startsWithDot name then false
  else true

/-- The file-candidacy test of `walk_project`'s file loop (lines 137-142):
skip a hidden-named file (unless exempted by suffix or `includeHidden`),
then require an allowed extension. -/
def fileIsCandidate (allowedExtensions : List String) (includeHidden : Bool)
    (filePath name : String) : Bool :=
  if !includeHidden && startsWithDot name
      && !hiddenFileSuffixExceptions.contains (pathSuffix filePath) then false
  else should_include_file filePath allowedExtensions

/-- The candidates contributed by the files of a single directory, in
directory-listing order (`os.walk` yields each directory's `filenames`,
which the loop scans in order). -/
def fileCandidates (allowedExtensions : List String) (includeHidden : Bool)
    (dirPath : String) : List Entry → List (String × FileData)
  | [] => []
  | Entry.file name fd :: rest =>
    let filePath := dirPath ++ "/" ++ name
    if fileIsCandidate allowedExtensions includeHidden filePath name then
      (filePath, fd) :: fileCandidates allowedExtensions includeHidden dirPath rest
    else fileCandidates allowedExtensions includeHidden dirPath rest
  | Entry.dir _ _ :: rest => fileCandidates allowedExtensions includeHidden dirPath rest

mutual
/-- One step of `os.walk(root)`: the candidates of the current directory's
files, followed by the candidates of its kept subtrees, depth-first in
listing order (top-down traversal). -/
def collectDir (excludedDirectories allowedExtensions : List String)
    (includeHidden : Bool) (dirPath : String) (children : List Entry) :
    List (String × FileData) :=
  fileCandidates allowedExtensions includeHidden dirPath children ++
    walkSubdirs excludedDirectories allowedExtensions includeHidden dirPath children
termination_by (sizeOf children, 1)

/-- Recurse into the kept directory children, in order; pruned directories
(`dirnames[:] = pruned_dirnames`) are never visited. -/
def walkSubdirs (excludedDirectories allowedExtensions : List String)
    (includeHidden : Bool) (dirPath : String) :
    List Entry → List (String × FileData)
  | [] => []
  | Entry.file _ _ :: rest =>
    walkSubdirs excludedDirectories allowedExtensions includeHidden dirPath rest
  | Entry.dir name sub :: rest =>
    (if keepDirectory excludedDirectories includeHidden name then
      collectDir excludedDirectories allowedExtensions includeHidden
        (dirPath ++ "/" ++ name) sub
    else []) ++
      walkSubdirs excludedDirectories allowedExtensions includeHidden dirPath rest
termination_by cs => (sizeOf cs, 0)
end

/-- The sort comparator of `walk_project`: `key=lambda p: str(p).lower()`,
i.e. code-point comparison of the lower-cased path strings. -/
def sortKeyLe (a b : String × FileData) : Bool :=
  pyStrLe (lowerStr a.1) (lowerStr b.1)

/-- `walk_project`: collect the candidates by a pruned top-down walk, then
sort by the lower-cased path string (Python `list.sort` is stable;
`List.mergeSort` is the stable sort of the embedding). -/
def walk_project (rootDir : String) (rootChildren : List Entry)
    (excludedDirectories allowedExtensions : List String)
    (includeHidden : Bool) : List (String × FileData) :=
  (collectDir excludedDirectories allowedExtensions includeHidden rootDir
    rootChildren).mergeSort sortKeyLe

/-- U+FFFD, the replacement character used by `errors="replace"`. -/
def replacementChar : Char := Char.ofNat 0xFFFD

/-- A UTF-8 continuation byte. -/
def isCont (b : Nat) : Bool := 0x80 ≤ b && b ≤ 0xBF

/-- UTF-8 decoding with CPython's `errors="replace"` handler: each maximal
valid prefix of an ill-formed sequence is replaced by one U+FFFD and
decoding resumes at the offending byte. -/
def utf8DecodeReplace : List Nat → List Char
  | [] => []
  | b :: rest =>
    if b < 0x80 then Char.ofNat b :: utf8DecodeReplace rest
    else if 0xC2 ≤ b && b ≤ 0xDF then
      match rest with
      | c1 :: rest1 =>
        if isCont c1 then
          Char.ofNat ((b - 0xC0) * 64 + (c1 - 0x80)) :: utf8DecodeReplace rest1
        else replacementChar :: utf8DecodeReplace (c1 :: rest1)
      | [] => [replacementChar]
    else if 0xE0 ≤ b && b ≤ 0xEF then
      let lo := if b = 0xE0 then 0xA0 else 0x80
      let hi := if b = 0xED then 0x9F else 0xBF
      match rest with
      | c1 :: rest1 =>
        if lo ≤ c1 && c1 ≤ hi then
          match rest1 with
          | c2 :: rest2 =>
            if isCont c2 then
              Char.ofNat ((b - 0xE0) * 4096 + (c1 - 0x80) * 64 + (c2 - 0x80)) ::
                utf8DecodeReplace rest2
            else replacementChar :: utf8DecodeReplace (c2 :: rest2)
          | [] => [replacementChar]
        else replacementChar :: utf8DecodeReplace (c1 :: rest1)
      | [] => [replacementChar]
    else if 0xF0 ≤ b && b ≤ 0xF4 then
      let lo := if b = 0xF0 then 0x90 else 0x80
      let hi := if b = 0xF4 then 0x8F else 0xBF
      match rest with
      | c1 :: rest1 =>
        if lo ≤ c1 && c1 ≤ hi then
          match rest1 with
          | c2 :: rest2 =>
            if isCont c2 then
              match rest2 with
              | c3 :: rest3 =>
                if isCont c3 then
                  Char.ofNat ((b - 0xF0) * 262144 + (c1 - 0x80) * 4096 +
                      (c2 - 0x80) * 64 + (c3 - 0x80)) :: utf8DecodeReplace rest3
                else replacementChar :: utf8DecodeReplace (c3 :: rest3)
              | [] => [replacementChar]
            else replacementChar :: utf8DecodeReplace (c2 :: rest2)
          | [] => [replacementChar]
        else replacementChar :: utf8DecodeReplace (c1 :: rest1)
      | [] => [replacementChar]
    else replacementChar :: utf8DecodeReplace rest
termination_by l => l.length
decreasing_by all_goals simp only [List.length_cons]; omega

/-- `read_text_safely`: `None` when stat fails, the size exceeds `maxBytes`,
or the binary heuristic fires (a read failure makes the heuristic fire);
otherwise the decoded text.  The checks are in source order: stat/size
first, binary second, full read last. -/
def read_text_safely (fd : FileData) (maxBytes : Nat) : Option String :=
  if fd.statError then none
  else if fd.bytes.length > maxBytes then none
  else if is_probably_binary fd 8192 then none
  else some (String.mk (utf8DecodeReplace fd.bytes))

/-- The per-candidate outcome of the main loop. -/
inductive InclusionOutcome where
  | included (text : String)
  | skippedTooLarge
  | skippedBinary
deriving DecidableEq, Repr

/-- How `main` classifies one candidate (lines 246-259): a `None` from
`read_text_safely` is re-statted; a stat failure or a size within bounds
counts as binary/unreadable, an oversize as too large. -/
def candidateOutcome (fd : FileData) (maxBytes : Nat) : InclusionOutcome :=
  match read_text_safely fd maxBytes with
  | some text => InclusionOutcome.included text
  | none =>
    if fd.statError then InclusionOutcome.skippedBinary
    else if fd.bytes.length > maxBytes then InclusionOutcome.skippedTooLarge
    else InclusionOutcome.skippedBinary

/-- `human_kilobytes`: `f"{num_bytes/1024:.1f} KB"`.  `num_bytes/1024` is
exact in binary floating point (for sizes below 2^53), so the format is
round-half-to-even of `10*n/1024` tenths. -/
def human_kilobytes (numBytes : Nat) : String :=
  let num := numBytes * 10
  let q := num / 1024
  let r := num % 1024
  let tenths :=
    if 2 * r > 1024 then q + 1
    else if 2 * r < 1024 then q
    else if q % 2 = 0 then q else q + 1
  toString (tenths / 10) ++ "." ++ toString (tenths % 10) ++ " KB"

/-- `path.relative_to(project_root)` for a path produced by the walker:
strip the root prefix and its separator. -/
def relativeTo (rootName p : String) : String := p.drop (rootName.length + 1)

/-- Python `content.rstrip("\n")`. -/
def pyRstripNewlines (s : String) : String :=
  ⟨(s.data.reverse.dropWhile (fun c => c = '\n')).reverse⟩

/-- The run configuration after argument parsing: resolved root path string,
size limit in KB, hidden flag, extra excluded directory names, explicit
extension allow-list (empty means "unset"). -/
structure Options where
  rootName : String
  maxKb : Nat := 512
  includeHidden : Bool := false
  extraDirs : List String := []
  onlyExts : List String := []

/-- Lines 206-207: the default excluded set is always unioned with
`extra_dirs`. -/
def resolveExcludedDirectories (extraDirs : List String) : List String :=
  DEFAULT_EXCLUDED_DIRS ++ extraDirs

/-- Lines 209-211: a non-empty `only_exts` replaces the default allow-list
(each entry lower-cased); an empty one leaves the defaults. -/
def resolveAllowedExtensions (onlyExts : List String) : List String :=
  if onlyExts.isEmpty then DEFAULT_ALLOWED_EXTENSIONS
  else onlyExts.map lowerStr

/-- The table-of-contents lines (lines 233-239): one bullet per candidate,
silently dropped when stat fails. -/
def tocLines (rootName : String) (cands : List (String × FileData)) : List String :=
  cands.filterMap fun pfd =>
    if pfd.2.statError then none
    else some ("- `" ++ relativeTo rootName pfd.1 ++ "` (" ++
      human_kilobytes pfd.2.bytes.length ++ ")")

/-- The body loop (lines 246-268): per-candidate section lines in candidate
order, plus the three counters. -/
def renderBody (rootName : String) (maxBytes : Nat) :
    List (String × FileData) → List String × Nat × Nat × Nat
  | [] => ([], 0, 0, 0)
  | (p, fd) :: rest =>
    let acc := renderBody rootName maxBytes rest
    match candidateOutcome fd maxBytes with
    | InclusionOutcome.skippedTooLarge => (acc.1, acc.2.1, acc.2.2.1 + 1, acc.2.2.2)
    | InclusionOutcome.skippedBinary => (acc.1, acc.2.1, acc.2.2.1, acc.2.2.2 + 1)
    | InclusionOutcome.included content =>
      let rel := relativeTo rootName p
      let tag := infer_lang_from_extension p
      let fence := if tag = "" then "```" else "```" ++ tag
      (("===== FILE: " ++ rel ++ " =====\n") :: fence ::
        pyRstripNewlines content :: "```\n" :: acc.1,
       acc.2.1 + 1, acc.2.2.1, acc.2.2.2)

/-- The whole of `main` after argument parsing: resolve the policy, walk,
and assemble header, table of contents, body and footer into the document
text written to the output file (lines 224-276). -/
def buildDocument (rootChildren : List Entry) (opts : Options) : String :=
  let excl := resolveExcludedDirectories opts.extraDirs
  let allowed := resolveAllowedExtensions opts.onlyExts
  let collected := walk_project opts.rootName rootChildren excl allowed opts.includeHidden
  let header := ["# Project Context Collation\n",
    "- Root: `" ++ opts.rootName ++ "`",
    "- File count scanned (pre-size/binary filter): " ++ toString collected.length,
    "- Max file size included: " ++ toString opts.maxKb ++ " KB",
    "", "## Table of Contents", ""]
  let toc := tocLines opts.rootName collected
  let bodyAndCounts := renderBody opts.rootName (opts.maxKb * 1024) collected
  let footer := ["\n---",
    "Included files: " ++ toString bodyAndCounts.2.1,
    "Skipped (too large): " ++ toString bodyAndCounts.2.2.1,
    "Skipped (binary/non-text): " ++ toString bodyAndCounts.2.2.2, ""]
  String.intercalate "\n"
    (header ++ toc ++ ["\n---\n"] ++ bodyAndCounts.1 ++ footer)

/-- The tree with every directory whose name is in the exclusion set
removed, at every depth (files are kept). -/
def pruneExcluded (excl : List String) : List Entry → List Entry
  | [] => []
  | Entry.file n d :: rest => Entry.file n d :: pruneExcluded excl rest
  | Entry.dir n sub :: rest =>
    if excl.contains n then pruneExcluded excl rest
    else Entry.dir n (pruneExcluded excl sub) :: pruneExcluded excl rest

/-- The bookkeeping of the main loop partitions: each candidate bumps
exactly one of the three counters. -/
theorem renderBody_counts (rootName : String) (maxBytes : Nat)
    (cands : List (String × FileData)) :
    (renderBody rootName maxBytes cands).2.1 +
      (renderBody rootName maxBytes cands).2.2.1 +
      (renderBody rootName maxBytes cands).2.2.2 = cands.length := by
  induction cands with
  | nil => simp [renderBody]
  | cons hd tl ih =>
    obtain ⟨p, fd⟩ := hd
    simp only [renderBody]
    cases h : candidateOutcome fd maxBytes <;> simp only [h] <;>
      simp only [List.length_cons] <;> omega

/-- A stat failure makes both the loader and the re-stat in `main` fail, so
the candidate lands in the binary/unreadable counter. -/
theorem statError_counts_as_binary (fd : FileData) (maxBytes : Nat)
    (h : fd.statError = true) :
    candidateOutcome fd maxBytes = InclusionOutcome.skippedBinary := by
  simp [candidateOutcome, read_text_safely, h]

/-- A read failure within the size bound trips the binary heuristic, so the
candidate lands in the binary/unreadable counter. -/
theorem readError_counts_as_binary (fd : FileData) (maxBytes : Nat)
    (hr : fd.readError = true) (hs : fd.statError = false)
    (hb : fd.bytes.length ≤ maxBytes) :
    candidateOutcome fd maxBytes = InclusionOutcome.skippedBinary := by
  simp [candidateOutcome, read_text_safely, is_probably_binary, hr, hs, Nat.not_lt.2 hb]

/-- Claim C1: for every run, the three final counters partition the sorted
candidate list produced by the walker — `includedCount + skippedForSize +
skippedAsBinary` equals its length, each candidate being counted under
exactly one outcome — and a candidate whose stat errors, or whose read
errors while it is within the size bound, is counted under
`skippedAsBinary`. -/
theorem run_counters_partition (rootDir rootName : String)
    (rootChildren : List Entry) (excl allowed : List String)
    (includeHidden : Bool) (maxBytes : Nat) :
    (renderBody rootName maxBytes
        (walk_project rootDir rootChildren excl allowed includeHidden)).2.1 +
      (renderBody rootName maxBytes
        (walk_project rootDir rootChildren excl allowed includeHidden)).2.2.1 +
      (renderBody rootName maxBytes
        (walk_project rootDir rootChildren excl allowed includeHidden)).2.2.2 =
      (walk_project rootDir rootChildren excl allowed includeHidden).length ∧
    (∀ fd : FileData, fd.statError = true →
      candidateOutcome fd maxBytes = InclusionOutcome.skippedBinary) ∧
    (∀ fd : FileData, fd.readError = true → fd.statError = false →
      fd.bytes.length ≤ maxBytes →
      candidateOutcome fd maxBytes = InclusionOutcome.skippedBinary) :=
  ⟨renderBody_counts rootName maxBytes _,
   fun fd h => statError_counts_as_binary fd maxBytes h,
   fun fd hr hs hb => readError_counts_as_binary fd maxBytes hr hs hb⟩

/-- Closed instance of `run_counters_partition` at a concrete tree, a
stat-erroring file and a read-erroring file. -/
theorem run_counters_partition_witness :
    ((renderBody "root" 524288 (walk_project "root"
        [Entry.file "a.py" ⟨[65], false, false⟩]
        DEFAULT_EXCLUDED_DIRS DEFAULT_ALLOWED_EXTENSIONS false)).2.1 +
      (renderBody "root" 524288 (walk_project "root"
        [Entry.file "a.py" ⟨[65], false, false⟩]
        DEFAULT_EXCLUDED_DIRS DEFAULT_ALLOWED_EXTENSIONS false)).2.2.1 +
      (renderBody "root" 524288 (walk_project "root"
        [Entry.file "a.py" ⟨[65], false, false⟩]
        DEFAULT_EXCLUDED_DIRS DEFAULT_ALLOWED_EXTENSIONS false)).2.2.2 =
      (walk_project "root" [Entry.file "a.py" ⟨[65], false, false⟩]
        DEFAULT_EXCLUDED_DIRS DEFAULT_ALLOWED_EXTENSIONS false).length) ∧
    candidateOutcome ⟨[65], true, false⟩ 524288 = InclusionOutcome.skippedBinary ∧
    candidateOutcome ⟨[66], false, true⟩ 524288 = InclusionOutcome.skippedBinary := by
  have h := run_counters_partition "root" "root"
    [Entry.file "a.py" ⟨[65], false, false⟩]
    DEFAULT_EXCLUDED_DIRS DEFAULT_ALLOWED_EXTENSIONS false 524288
  exact ⟨h.1, h.2.1 ⟨[65], true, false⟩ rfl,
    h.2.2 ⟨[66], false, true⟩ rfl rfl (by decide)⟩

/-- Claim C3: the binary detector returns true on a read failure; otherwise,
on the sample of at most 8192 bytes from the start, it returns true iff the
sample contains a NUL byte, or is non-empty with the fraction of bytes of
value below 9 or strictly between 13 and 32 exceeding 0.30. -/
theorem binary_detector_characterization (fd : FileData) :
    is_probably_binary fd 8192 = true ↔
      fd.readError = true ∨ (fd.bytes.take 8192).contains 0 = true ∨
        (fd.bytes.take 8192 ≠ [] ∧
          (3 : ℚ) / 10 < ((fd.bytes.take 8192).countP isControlByte : ℚ) /
            ((fd.bytes.take 8192).length : ℚ)) := by
  cases hre : fd.readError with
  | true => simp [is_probably_binary, hre]
  | false =>
    simp only [is_probably_binary, hre, Bool.false_eq_true, if_false, false_or]
    by_cases hz : (fd.bytes.take 8192).contains 0 = true
    · exact iff_of_true (by simp only [hz, eq_self_iff_true, if_true]) (Or.inl hz)
    · have hzf : (fd.bytes.take 8192).contains 0 = false := by
        simpa using hz
      simp only [hzf, Bool.false_eq_true, if_false, false_or]
      by_cases hnil : fd.bytes.take 8192 = []
      · exact iff_of_false (by simp [hnil]) (by simp [hnil])
      · have hef : (fd.bytes.take 8192).isEmpty = false := by
          simpa [List.isEmpty_iff] using hnil
        have hlt : 0 < (fd.bytes.take 8192).length := List.length_pos.mpr hnil
        have hq : (0 : ℚ) < ((fd.bytes.take 8192).length : ℚ) := by
          exact_mod_cast hlt
        simp only [hef, Bool.false_eq_true, if_false, hnil, ne_eq,
          not_false_eq_true, true_and]
        rw [div_lt_div_iff₀ (by norm_num) hq, decide_eq_true_iff]
        constructor
        · intro h
          have h2 : 3 * (fd.bytes.take 8192).length <
              ((fd.bytes.take 8192).countP isControlByte) * 10 := by omega
          exact_mod_cast h2
        · intro h
          have h2 : 3 * (fd.bytes.take 8192).length <
              ((fd.bytes.take 8192).countP isControlByte) * 10 := by exact_mod_cast h
          omega

/-- Claim C6: a candidate whose size exceeds `maxBytes` (and whose stat
succeeds) is rejected by `read_text_safely` on the size test alone — the
statement quantifies over arbitrary content bytes and an arbitrary
read-failure flag, so neither the binary check nor any content read can
influence the outcome — and the run counts it under `skippedForSize`. -/
theorem oversized_candidate_skipped_for_size (fd : FileData) (maxBytes : Nat)
    (hstat : fd.statError = false) (hsize : fd.bytes.length > maxBytes) :
    read_text_safely fd maxBytes = none ∧
      candidateOutcome fd maxBytes = InclusionOutcome.skippedTooLarge := by
  constructor
  · simp [read_text_safely, hstat, hsize]
  · simp [candidateOutcome, read_text_safely, hstat, hsize]

/-- Closed instance of `oversized_candidate_skipped_for_size`: a two-byte
all-NUL file whose read would fail, against a one-byte limit, is still
counted as too large. -/
theorem oversized_candidate_skipped_for_size_witness :
    (⟨[0, 0], false, true⟩ : FileData).statError = false ∧
    (⟨[0, 0], false, true⟩ : FileData).bytes.length > 1 ∧
    read_text_safely ⟨[0, 0], false, true⟩ 1 = none ∧
    candidateOutcome ⟨[0, 0], false, true⟩ 1 = InclusionOutcome.skippedTooLarge := by
  have h := oversized_candidate_skipped_for_size ⟨[0, 0], false, true⟩ 1 rfl (by decide)
  exact ⟨rfl, by decide, h.1, h.2⟩

/-- Claim C8: the document is a pure function of the tree state and the
options, so two runs over an unchanged tree with identical options produce
byte-identical output. -/
theorem collation_deterministic (t1 t2 : List Entry) (o1 o2 : Options)
    (ht : t1 = t2) (ho : o1 = o2) :
    buildDocument t1 o1 = buildDocument t2 o2 := by
  subst ht; subst ho; rfl

/-- Closed instance of `collation_deterministic` at a concrete tree. -/
theorem collation_deterministic_witness :
    buildDocument [Entry.file "a.py" ⟨[65], false, false⟩] { rootName := "root" } =
      buildDocument [Entry.file "a.py" ⟨[65], false, false⟩] { rootName := "root" } :=
  collation_deterministic _ _ _ _ rfl rfl

/-- Claim C7: a non-empty explicit allow-list replaces the default extension
set outright (each entry lower-cased, no union) — so `.toml`, though in the
defaults, yields no candidate when only `[".rs"]` is supplied — while extra
excluded directory names are unioned with the default exclusion set. -/
theorem only_exts_replaces_extra_dirs_union (onlyExts extraDirs : List String)
    (hne : onlyExts ≠ []) :
    resolveAllowedExtensions onlyExts = onlyExts.map lowerStr ∧
    (∀ d, d ∈ resolveExcludedDirectories extraDirs ↔
      d ∈ DEFAULT_EXCLUDED_DIRS ∨ d ∈ extraDirs) ∧
    ".toml" ∈ DEFAULT_ALLOWED_EXTENSIONS ∧
    resolveAllowedExtensions [".rs"] = [".rs"] ∧
    walk_project "root" [Entry.file "a.toml" ⟨[65], false, false⟩]
      (resolveExcludedDirectories []) (resolveAllowedExtensions [".rs"]) false = [] ∧
    walk_project "root" [Entry.file "a.toml" ⟨[65], false, false⟩]
      (resolveExcludedDirectories []) DEFAULT_ALLOWED_EXTENSIONS false =
      [("root/a.toml", ⟨[65], false, false⟩)] := by
  refine ⟨?_, ?_, by decide, by decide, ?_, ?_⟩
  · simp [resolveAllowedExtensions, List.isEmpty_iff, hne]
  · intro d
    simp [resolveExcludedDirectories]
  · simp +decide [walk_project, collectDir, walkSubdirs, fileCandidates,
      fileIsCandidate, should_include_file, keepDirectory, pathSuffix, pathName,
      lowerStr, lowerChar, charListLe, pyStrLe, sortKeyLe, startsWithDot,
      List.mergeSort, List.merge, hiddenFileSuffixExceptions,
      DEFAULT_EXCLUDED_DIRS, DEFAULT_ALLOWED_EXTENSIONS,
      resolveAllowedExtensions, resolveExcludedDirectories]
  · simp +decide [walk_project, collectDir, walkSubdirs, fileCandidates,
      fileIsCandidate, should_include_file, keepDirectory, pathSuffix, pathName,
      lowerStr, lowerChar, charListLe, pyStrLe, sortKeyLe, startsWithDot,
      List.mergeSort, List.merge, hiddenFileSuffixExceptions,
      DEFAULT_EXCLUDED_DIRS, DEFAULT_ALLOWED_EXTENSIONS,
      resolveAllowedExtensions, resolveExcludedDirectories]

/-- Closed instance of `only_exts_replaces_extra_dirs_union` at the
allow-list `[".rs"]` and extra directory list `["vendor"]`. -/
theorem only_exts_replaces_extra_dirs_union_witness :
    resolveAllowedExtensions [".rs"] = [".rs"] ∧
    ("vendor" ∈ resolveExcludedDirectories ["vendor"] ∧
      "node_modules" ∈ resolveExcludedDirectories ["vendor"]) ∧
    walk_project "root" [Entry.file "a.toml" ⟨[65], false, false⟩]
      (resolveExcludedDirectories []) (resolveAllowedExtensions [".rs"]) false = [] := by
  have h := only_exts_replaces_extra_dirs_union [".rs"] ["vendor"] (by decide)
  exact ⟨h.2.2.2.1,
    ⟨(h.2.1 "vendor").2 (Or.inr (by decide)),
     (h.2.1 "node_modules").2 (Or.inl (by decide))⟩,
    h.2.2.2.2.1⟩

/-- Claim C2 is refuted by the code: with `includeHidden` false the hidden
files `.gitignore` and `.env` are both excluded.  `Path.suffix` of a file
named `.gitignore` is the empty string, so the suffix-set exception on line
139 never fires for it, and the empty suffix is not an allowed extension
either; the exception only rescues doubled names such as `.foo.gitignore`.
The claim (and the evident intent of the `.gitignore` allow-list entry)
says plain `.gitignore` is included; the code drops it. -/
theorem hidden_gitignore_excluded :
    pathSuffix ".gitignore" = "" ∧
    walk_project "root"
      [Entry.file ".gitignore" ⟨[65], false, false⟩,
       Entry.file ".env" ⟨[66], false, false⟩]
      DEFAULT_EXCLUDED_DIRS DEFAULT_ALLOWED_EXTENSIONS false = [] ∧
    walk_project "root" [Entry.file ".foo.gitignore" ⟨[67], false, false⟩]
      DEFAULT_EXCLUDED_DIRS DEFAULT_ALLOWED_EXTENSIONS false =
      [("root/.foo.gitignore", ⟨[67], false, false⟩)] := by
  refine ⟨by decide, ?_, ?_⟩
  · simp +decide [walk_project, collectDir, walkSubdirs, fileCandidates,
      fileIsCandidate, should_include_file, keepDirectory, pathSuffix, pathName,
      lowerStr, lowerChar, charListLe, pyStrLe, sortKeyLe, startsWithDot,
      List.mergeSort, List.merge, hiddenFileSuffixExceptions,
      DEFAULT_EXCLUDED_DIRS, DEFAULT_ALLOWED_EXTENSIONS]
  · simp +decide [walk_project, collectDir, walkSubdirs, fileCandidates,
      fileIsCandidate, should_include_file, keepDirectory, pathSuffix, pathName,
      lowerStr, lowerChar, charListLe, pyStrLe, sortKeyLe, startsWithDot,
      List.mergeSort, List.merge, hiddenFileSuffixExceptions,
      DEFAULT_EXCLUDED_DIRS, DEFAULT_ALLOWED_EXTENSIONS]

/-- Unfolding of the code-point comparator on cons cells. -/
theorem charListLe_cons_iff (a b : Char) (as bs : List Char) :
    charListLe (a :: as) (b :: bs) = true ↔
      a.toNat < b.toNat ∨ (a.toNat = b.toNat ∧ charListLe as bs = true) := by
  simp only [charListLe]
  rcases Nat.lt_trichotomy a.toNat b.toNat with h | h | h
  · simp [h]
  · have h1 : ¬ a.toNat < b.toNat := by omega
    have h2 : ¬ b.toNat < a.toNat := by omega
    simp [h, h1, h2]
  · have h1 : ¬ a.toNat < b.toNat := by omega
    have h2 : ¬ a.toNat = b.toNat := by omega
    simp [h, h1, h2]

/-- The code-point comparator is reflexive. -/
theorem charListLe_refl : ∀ a : List Char, charListLe a a = true
  | [] => rfl
  | a :: as => by
    rw [charListLe_cons_iff]
    exact Or.inr ⟨rfl, charListLe_refl as⟩

/-- The code-point comparator is transitive. -/
theorem charListLe_trans : ∀ a b c : List Char, charListLe a b = true →
    charListLe b c = true → charListLe a c = true
  | [], _, _, _, _ => rfl
  | _ :: _, [], _, h, _ => by simp [charListLe] at h
  | _ :: _, _ :: _, [], _, h => by simp [charListLe] at h
  | a :: as, b :: bs, c :: cs, h1, h2 => by
    rw [charListLe_cons_iff] at h1 h2 ⊢
    rcases h1 with h1 | ⟨h1e, h1r⟩
    · rcases h2 with h2 | ⟨h2e, _⟩
      · exact Or.inl (by omega)
      · exact Or.inl (by omega)
    · rcases h2 with h2 | ⟨h2e, h2r⟩
      · exact Or.inl (by omega)
      · exact Or.inr ⟨by omega, charListLe_trans as bs cs h1r h2r⟩

/-- The code-point comparator is total. -/
theorem charListLe_total : ∀ a b : List Char, (charListLe a b || charListLe b a) = true
  | [], _ => by simp [charListLe]
  | _ :: _, [] => by simp [charListLe]
  | a :: as, b :: bs => by
    have ih := charListLe_total as bs
    rw [Bool.or_eq_true] at ih ⊢
    rw [charListLe_cons_iff, charListLe_cons_iff]
    rcases Nat.lt_trichotomy a.toNat b.toNat with h | h | h
    · exact Or.inl (Or.inl h)
    · rcases ih with h2 | h2
      · exact Or.inl (Or.inr ⟨h, h2⟩)
      · exact Or.inr (Or.inr ⟨h.symm, h2⟩)
    · exact Or.inr (Or.inl h)

/-- The walker's sort comparator is transitive. -/
theorem sortKeyLe_trans (a b c : String × FileData) :
    sortKeyLe a b = true → sortKeyLe b c = true → sortKeyLe a c = true :=
  charListLe_trans _ _ _

/-- The walker's sort comparator is total. -/
theorem sortKeyLe_total (a b : String × FileData) :
    (sortKeyLe a b || sortKeyLe b a) = true :=
  charListLe_total _ _

/-- Two candidates with the same lower-cased path compare `≤` either way. -/
theorem sortKeyLe_of_key_eq (a b : String × FileData)
    (h : lowerStr a.1 = lowerStr b.1) : sortKeyLe a b = true := by
  unfold sortKeyLe pyStrLe
  rw [h]
  exact charListLe_refl _

/-- Claim C4: the walker's candidate list is sorted by the lower-cased
string form of the paths, and the sort is stable — for every case-folded
key, the candidates carrying that key appear in the same relative order as
in the traversal (`collectDir`) output; in particular, for sibling files
listed in the order `b.txt`, `A.txt`, `a.TXT`, the result is `A.txt`,
`a.TXT`, `b.txt` (the tied pair keeps traversal order and precedes
`b.txt`). -/
theorem walk_sorted_stable (rootDir : String) (rootChildren : List Entry)
    (excl allowed : List String) (includeHidden : Bool) :
    List.Pairwise (fun a b => sortKeyLe a b = true)
      (walk_project rootDir rootChildren excl allowed includeHidden) ∧
    (∀ key : String,
      (walk_project rootDir rootChildren excl allowed includeHidden).filter
        (fun pr => lowerStr pr.1 == key) =
      (collectDir excl allowed includeHidden rootDir rootChildren).filter
        (fun pr => lowerStr pr.1 == key)) ∧
    walk_project "root"
      [Entry.file "b.txt" ⟨[65], false, false⟩,
       Entry.file "A.txt" ⟨[66], false, false⟩,
       Entry.file "a.TXT" ⟨[67], false, false⟩]
      DEFAULT_EXCLUDED_DIRS DEFAULT_ALLOWED_EXTENSIONS false =
      [("root/A.txt", ⟨[66], false, false⟩),
       ("root/a.TXT", ⟨[67], false, false⟩),
       ("root/b.txt", ⟨[65], false, false⟩)] := by
  refine ⟨?_, ?_, ?_⟩
  · unfold walk_project
    exact List.sorted_mergeSort sortKeyLe_trans sortKeyLe_total _
  · intro key
    unfold walk_project
    have hkeys : ∀ x ∈ (collectDir excl allowed includeHidden rootDir
        rootChildren).filter (fun pr => lowerStr pr.1 == key), lowerStr x.1 = key := by
      intro x hx
      have := (List.mem_filter.mp hx).2
      simpa [beq_iff_eq] using this
    have hpair : List.Pairwise (fun a b => sortKeyLe a b = true)
        ((collectDir excl allowed includeHidden rootDir rootChildren).filter
          (fun pr => lowerStr pr.1 == key)) := by
      apply List.pairwise_of_forall_mem_list
      intro a ha b hb
      exact sortKeyLe_of_key_eq a b ((hkeys a ha).trans (hkeys b hb).symm)
    have hsub : ((collectDir excl allowed includeHidden rootDir
        rootChildren).filter (fun pr => lowerStr pr.1 == key)).Sublist
        ((collectDir excl allowed includeHidden rootDir rootChildren).mergeSort
          sortKeyLe) :=
      List.sublist_mergeSort sortKeyLe_trans sortKeyLe_total hpair
        (List.filter_sublist _)
    have hsub2 := hsub.filter (fun pr => lowerStr pr.1 == key)
    rw [List.filter_filter] at hsub2
    simp only [Bool.and_self] at hsub2
    have hperm : (((collectDir excl allowed includeHidden rootDir
        rootChildren).mergeSort sortKeyLe).filter
          (fun pr => lowerStr pr.1 == key)).Perm
        ((collectDir excl allowed includeHidden rootDir rootChildren).filter
          (fun pr => lowerStr pr.1 == key)) :=
      (List.mergeSort_perm _ sortKeyLe).filter _
    exact (hsub2.eq_of_length hperm.length_eq.symm).symm
  · simp +decide [walk_project, collectDir, walkSubdirs, fileCandidates,
      fileIsCandidate, should_include_file, keepDirectory, pathSuffix, pathName,
      lowerStr, lowerChar, charListLe, pyStrLe, sortKeyLe, startsWithDot,
      List.mergeSort, List.merge, hiddenFileSuffixExceptions,
      DEFAULT_EXCLUDED_DIRS, DEFAULT_ALLOWED_EXTENSIONS]

/-- A directory's own file candidates ignore its subdirectory entries, so
pruning excluded directories does not change them. -/
theorem fileCandidates_pruneExcluded (excl allowed : List String) (ih : Bool)
    (path : String) : ∀ cs : List Entry,
    fileCandidates allowed ih path (pruneExcluded excl cs) =
      fileCandidates allowed ih path cs
  | [] => by rw [pruneExcluded]
  | Entry.file n d :: rest => by
    simp only [pruneExcluded, fileCandidates]
    rw [fileCandidates_pruneExcluded excl allowed ih path rest]
  | Entry.dir n sub :: rest => by
    by_cases h : excl.contains n = true
    · simp only [pruneExcluded, if_pos h, fileCandidates]
      exact fileCandidates_pruneExcluded excl allowed ih path rest
    · simp only [pruneExcluded, if_neg h, fileCandidates]
      exact fileCandidates_pruneExcluded excl allowed ih path rest

mutual
/-- Walking a tree with its excluded directories pruned away yields exactly
the same candidates: excluded subtrees contribute nothing. -/
theorem collectDir_pruneExcluded (excl allowed : List String) (ih : Bool)
    (path : String) (cs : List Entry) :
    collectDir excl allowed ih path (pruneExcluded excl cs) =
      collectDir excl allowed ih path cs := by
  unfold collectDir
  rw [fileCandidates_pruneExcluded,
    walkSubdirs_pruneExcluded excl allowed ih path cs]
termination_by (sizeOf cs, 1)

/-- Companion of `collectDir_pruneExcluded` for the subdirectory loop. -/
theorem walkSubdirs_pruneExcluded (excl allowed : List String) (ih : Bool)
    (path : String) (cs : List Entry) :
    walkSubdirs excl allowed ih path (pruneExcluded excl cs) =
      walkSubdirs excl allowed ih path cs := by
  match cs with
  | [] => rw [pruneExcluded]
  | Entry.file n d :: rest =>
    rw [pruneExcluded, walkSubdirs, walkSubdirs]
    exact walkSubdirs_pruneExcluded excl allowed ih path rest
  | Entry.dir n sub :: rest =>
    by_cases h : excl.contains n = true
    · have hkeep : keepDirectory excl ih n = false := by
        unfold keepDirectory
        rw [if_pos h]
      rw [pruneExcluded, if_pos h, walkSubdirs, hkeep]
      simp only [Bool.false_eq_true, if_false, List.nil_append]
      exact walkSubdirs_pruneExcluded excl allowed ih path rest
    · rw [pruneExcluded, if_neg h, walkSubdirs, walkSubdirs,
        collectDir_pruneExcluded excl allowed ih (path ++ "/" ++ n) sub,
        walkSubdirs_pruneExcluded excl allowed ih path rest]
termination_by (sizeOf cs, 0)
end

/-- Claim C5: a directory whose name is in `excludedDirectoryNames` is
never descended into at any depth — the walk of any tree equals the walk of
the tree with all such directories deleted, so their subtrees contribute
zero candidates — and the pruning test rejects such a name for either value
of `includeHidden` (the exclusion check precedes and is independent of the
hidden-directory rule); concretely, a `node_modules` subtree contributes
nothing even with `includeHidden` on. -/
theorem excluded_dirs_never_descended (excl allowed : List String)
    (includeHidden : Bool) (rootDir : String) (rootChildren : List Entry)
    (name : String) (hmem : name ∈ excl) :
    walk_project rootDir rootChildren excl allowed includeHidden =
      walk_project rootDir (pruneExcluded excl rootChildren) excl allowed
        includeHidden ∧
    keepDirectory excl includeHidden name = false ∧
    walk_project "root"
      [Entry.dir "node_modules" [Entry.file "x.js" ⟨[65], false, false⟩]]
      DEFAULT_EXCLUDED_DIRS DEFAULT_ALLOWED_EXTENSIONS true = [] := by
  refine ⟨?_, ?_, ?_⟩
  · unfold walk_project
    rw [collectDir_pruneExcluded]
  · have hc : excl.contains name = true := by simpa using hmem
    unfold keepDirectory
    rw [if_pos hc]
  · simp +decide [walk_project, collectDir, walkSubdirs, fileCandidates,
      fileIsCandidate, should_include_file, keepDirectory, pathSuffix, pathName,
      lowerStr, lowerChar, charListLe, pyStrLe, sortKeyLe, startsWithDot,
      List.mergeSort, List.merge, hiddenFileSuffixExceptions,
      DEFAULT_EXCLUDED_DIRS, DEFAULT_ALLOWED_EXTENSIONS]

/-- Closed instance of `excluded_dirs_never_descended` at a concrete
`node_modules` subtree with `includeHidden` on. -/
theorem excluded_dirs_never_descended_witness :
    (walk_project "r"
        [Entry.dir "node_modules" [Entry.file "x.js" ⟨[65], false, false⟩]]
        DEFAULT_EXCLUDED_DIRS DEFAULT_ALLOWED_EXTENSIONS true =
      walk_project "r"
        (pruneExcluded DEFAULT_EXCLUDED_DIRS
          [Entry.dir "node_modules" [Entry.file "x.js" ⟨[65], false, false⟩]])
        DEFAULT_EXCLUDED_DIRS DEFAULT_ALLOWED_EXTENSIONS true) ∧
    keepDirectory DEFAULT_EXCLUDED_DIRS true "node_modules" = false := by
  have h := excluded_dirs_never_descended DEFAULT_EXCLUDED_DIRS
    DEFAULT_ALLOWED_EXTENSIONS true "r"
    [Entry.dir "node_modules" [Entry.file "x.js" ⟨[65], false, false⟩]]
    "node_modules" (by decide)
  exact ⟨h.1, h.2.1⟩

/-- `Path.suffix` is either empty or begins with a dot. -/
theorem pathSuffix_empty_or_dot (p : String) :
    pathSuffix p = "" ∨ startsWithDot (pathSuffix p) = true := by
  simp only [pathSuffix]
  cases hfi : (pathName p).data.reverse.findIdx? (fun c => c = '.') with
  | none => exact Or.inl rfl
  | some k =>
    dsimp only
    by_cases hc : 0 < k ∧ k + 1 < (pathName p).data.length
    · right
      rw [if_pos hc]
      obtain ⟨hlen, hp, -⟩ := List.findIdx?_eq_some_iff_getElem.mp hfi
      have hdot : (pathName p).data.reverse[k] = '.' := by simpa using hp
      have hlen2 : (((pathName p).data.reverse).take (k + 1)).length = k + 1 := by
        simp only [List.length_take]
        omega
      have hhead : ((((pathName p).data.reverse).take (k + 1)).reverse).head? =
          some '.' := by
        rw [List.head?_reverse, List.getLast?_eq_getElem?, hlen2]
        simp only [Nat.add_sub_cancel, List.getElem?_take, Nat.lt_succ_self,
          if_true]
        rw [List.getElem?_eq_getElem hlen]
        rw [hdot]
      cases hcs : (((pathName p).data.reverse).take (k + 1)).reverse with
      | nil => rw [hcs] at hhead; cases hhead
      | cons c tail =>
        rw [hcs] at hhead
        simp only [List.head?_cons, Option.some.injEq] at hhead
        show startsWithDot ⟨c :: tail⟩ = true
        simp [startsWithDot, hhead]
    · exact Or.inl (by rw [if_neg hc])

/-- Lower-casing preserves a leading dot. -/
theorem startsWithDot_lowerStr (s : String) (h : startsWithDot s = true) :
    startsWithDot (lowerStr s) = true := by
  unfold startsWithDot at h
  cases hd : s.data with
  | nil => rw [hd] at h; cases h
  | cons c tail =>
    rw [hd] at h
    have hc : c = '.' := by simpa using h
    subst hc
    unfold lowerStr
    rw [hd]
    simp only [List.map_cons]
    simp [startsWithDot, lowerChar]

/-- Against an allow-list whose entries are all non-empty and dotless, no
file path passes the extension test: the compared key is the file's suffix,
which is either empty or dot-initial. -/
theorem should_include_file_false_of_dotless (allowed : List String)
    (hall : ∀ e ∈ allowed, e ≠ "" ∧ startsWithDot e = false) (p : String) :
    should_include_file p allowed = false := by
  unfold should_include_file
  simp only [List.contains, List.elem_eq_mem, decide_eq_false_iff_not]
  intro hmem
  rcases pathSuffix_empty_or_dot p with h | h
  · rw [h] at hmem
    exact (hall _ hmem).1 rfl
  · have hd := startsWithDot_lowerStr _ h
    have := (hall _ hmem).2
    rw [this] at hd
    cases hd

/-- If no path passes the extension test, a directory contributes no file
candidates. -/
theorem fileCandidates_nil_of_no_match (allowed : List String) (hid : Bool)
    (path : String)
    (hall : ∀ q : String, should_include_file q allowed = false) :
    ∀ cs : List Entry, fileCandidates allowed hid path cs = []
  | [] => rfl
  | Entry.file n d :: rest => by
    have hf : fileIsCandidate allowed hid (path ++ "/" ++ n) n = false := by
      unfold fileIsCandidate
      split
      · rfl
      · exact hall _
    simp only [fileCandidates, hf, Bool.false_eq_true, if_false]
    exact fileCandidates_nil_of_no_match allowed hid path hall rest
  | Entry.dir n sub :: rest => by
    simp only [fileCandidates]
    exact fileCandidates_nil_of_no_match allowed hid path hall rest

mutual
/-- If no path passes the extension test, the whole walk is empty. -/
theorem collectDir_nil_of_no_match (excl allowed : List String) (hid : Bool)
    (path : String) (cs : List Entry)
    (hall : ∀ q : String, should_include_file q allowed = false) :
    collectDir excl allowed hid path cs = [] := by
  unfold collectDir
  rw [fileCandidates_nil_of_no_match allowed hid path hall cs,
    walkSubdirs_nil_of_no_match excl allowed hid path cs hall]
  rfl
termination_by (sizeOf cs, 1)

/-- Companion of `collectDir_nil_of_no_match` for the subdirectory loop. -/
theorem walkSubdirs_nil_of_no_match (excl allowed : List String) (hid : Bool)
    (path : String) (cs : List Entry)
    (hall : ∀ q : String, should_include_file q allowed = false) :
    walkSubdirs excl allowed hid path cs = [] := by
  match cs with
  | [] => rw [walkSubdirs]
  | Entry.file n d :: rest =>
    rw [walkSubdirs]
    exact walkSubdirs_nil_of_no_match excl allowed hid path rest hall
  | Entry.dir n sub :: rest =>
    rw [walkSubdirs,
      collectDir_nil_of_no_match excl allowed hid (path ++ "/" ++ n) sub hall,
      walkSubdirs_nil_of_no_match excl allowed hid path rest hall]
    simp
termination_by (sizeOf cs, 0)
end

/-- Claim C9 (amended): an explicit allow-list entry that is non-empty and
does not start with a dot can never match any file — candidacy compares the
file's lower-cased suffix, which is empty or dot-prefixed, against the
entries — so an allow-list of only such entries yields zero candidates from
every tree.  The amendment excludes the empty-string entry, which the
original claim's universal wording covered and which does match suffix-less
files; see `dotless_empty_entry_matches`. -/
theorem dotless_nonempty_entries_never_match (allowed : List String)
    (hall : ∀ e ∈ allowed, e ≠ "" ∧ startsWithDot e = false) :
    (∀ p : String, should_include_file p allowed = false) ∧
    (∀ (rootDir : String) (rootChildren : List Entry) (excl : List String)
      (includeHidden : Bool),
      walk_project rootDir rootChildren excl allowed includeHidden = []) := by
  have h1 := should_include_file_false_of_dotless allowed hall
  refine ⟨h1, ?_⟩
  intro rootDir rootChildren excl includeHidden
  unfold walk_project
  rw [collectDir_nil_of_no_match excl allowed includeHidden rootDir
    rootChildren h1]
  exact List.mergeSort_nil

/-- Closed instance of `dotless_nonempty_entries_never_match` at the
allow-list of the two entries `rs` and `txt`. -/
theorem dotless_nonempty_entries_never_match_witness :
    should_include_file "root/a.rs" ["rs", "txt"] = false ∧
    walk_project "root" [Entry.file "a.rs" ⟨[65], false, false⟩]
      DEFAULT_EXCLUDED_DIRS ["rs", "txt"] false = [] := by
  have h := dotless_nonempty_entries_never_match ["rs", "txt"] (by decide)
  exact ⟨h.1 "root/a.rs",
    h.2 "root" [Entry.file "a.rs" ⟨[65], false, false⟩] DEFAULT_EXCLUDED_DIRS false⟩

/-- Claim C9 as stated is false at the empty-string entry: it is a
dotless entry, yet a suffix-less file such as `README` matches it (the
file's `Path.suffix` is the empty string, not a dot-prefixed one), so an
allow-list consisting only of dotless entries can still yield candidates. -/
theorem dotless_empty_entry_matches :
    startsWithDot "" = false ∧
    resolveAllowedExtensions [""] = [""] ∧
    should_include_file "root/README" (resolveAllowedExtensions [""]) = true ∧
    walk_project "root" [Entry.file "README" ⟨[65], false, false⟩]
      DEFAULT_EXCLUDED_DIRS (resolveAllowedExtensions [""]) false =
      [("root/README", ⟨[65], false, false⟩)] := by
  refine ⟨rfl, by decide, by decide, ?_⟩
  simp +decide [walk_project, collectDir, walkSubdirs, fileCandidates,
    fileIsCandidate, should_include_file, keepDirectory, pathSuffix, pathName,
    lowerStr, lowerChar, charListLe, pyStrLe, sortKeyLe, startsWithDot,
    List.mergeSort, List.merge, hiddenFileSuffixExceptions,
    DEFAULT_EXCLUDED_DIRS, DEFAULT_ALLOWED_EXTENSIONS, resolveAllowedExtensions]

/-- Claim C10: directory exclusion matches names by exact, case-sensitive
equality — any name not literally in the exclusion set is kept and its
subtree walked — so `TARGET` and `Node_Modules` are descended into under
the default set (which holds `target` and `node_modules`), and their
eligible files become candidates, while file-extension matching stays
case-insensitive (`A.RS` matches `.rs`). -/
theorem dir_exclusion_case_sensitive (excl allowed : List String)
    (includeHidden : Bool) (path name : String) (sub rest : List Entry)
    (hmem : name ∉ excl)
    (hhid : startsWithDot name = false ∨ includeHidden = true) :
    keepDirectory excl includeHidden name = true ∧
    walkSubdirs excl allowed includeHidden path (Entry.dir name sub :: rest) =
      collectDir excl allowed includeHidden (path ++ "/" ++ name) sub ++
        walkSubdirs excl allowed includeHidden path rest ∧
    "TARGET" ∉ DEFAULT_EXCLUDED_DIRS ∧
    "Node_Modules" ∉ DEFAULT_EXCLUDED_DIRS ∧
    should_include_file "root/A.RS" DEFAULT_ALLOWED_EXTENSIONS = true ∧
    walk_project "root"
      [Entry.dir "TARGET" [Entry.file "a.rs" ⟨[65], false, false⟩]]
      DEFAULT_EXCLUDED_DIRS DEFAULT_ALLOWED_EXTENSIONS false =
      [("root/TARGET/a.rs", ⟨[65], false, false⟩)] ∧
    walk_project "root"
      [Entry.dir "target" [Entry.file "a.rs" ⟨[65], false, false⟩]]
      DEFAULT_EXCLUDED_DIRS DEFAULT_ALLOWED_EXTENSIONS false = [] := by
  have hc : excl.contains name = false := by
    simp only [List.contains, List.elem_eq_mem, decide_eq_false_iff_not]
    exact hmem
  have hkeep : keepDirectory excl includeHidden name = true := by
    unfold keepDirectory
    rw [if_neg (by simp only [hc]; decide)]
    rcases hhid with h | h
    · rw [h]; simp
    · rw [h]; simp
  refine ⟨hkeep, ?_, by decide, by decide, by decide, ?_, ?_⟩
  · simp only [walkSubdirs, hkeep, if_true]
  · simp +decide [walk_project, collectDir, walkSubdirs, fileCandidates,
      fileIsCandidate, should_include_file, keepDirectory, pathSuffix, pathName,
      lowerStr, lowerChar, charListLe, pyStrLe, sortKeyLe, startsWithDot,
      List.mergeSort, List.merge, hiddenFileSuffixExceptions,
      DEFAULT_EXCLUDED_DIRS, DEFAULT_ALLOWED_EXTENSIONS]
  · simp +decide [walk_project, collectDir, walkSubdirs, fileCandidates,
      fileIsCandidate, should_include_file, keepDirectory, pathSuffix, pathName,
      lowerStr, lowerChar, charListLe, pyStrLe, sortKeyLe, startsWithDot,
      List.mergeSort, List.merge, hiddenFileSuffixExceptions,
      DEFAULT_EXCLUDED_DIRS, DEFAULT_ALLOWED_EXTENSIONS]

/-- Closed instance of `dir_exclusion_case_sensitive` at the names
`TARGET` and `Node_Modules` against the default exclusion set. -/
theorem dir_exclusion_case_sensitive_witness :
    keepDirectory DEFAULT_EXCLUDED_DIRS false "TARGET" = true ∧
    keepDirectory DEFAULT_EXCLUDED_DIRS false "Node_Modules" = true ∧
    walk_project "root"
      [Entry.dir "TARGET" [Entry.file "a.rs" ⟨[65], false, false⟩]]
      DEFAULT_EXCLUDED_DIRS DEFAULT_ALLOWED_EXTENSIONS false =
      [("root/TARGET/a.rs", ⟨[65], false, false⟩)] := by
  have h1 := dir_exclusion_case_sensitive DEFAULT_EXCLUDED_DIRS
    DEFAULT_ALLOWED_EXTENSIONS false "root" "TARGET" [] [] (by decide)
    (Or.inl (by decide))
  have h2 := dir_exclusion_case_sensitive DEFAULT_EXCLUDED_DIRS
    DEFAULT_ALLOWED_EXTENSIONS false "root" "Node_Modules" [] [] (by decide)
    (Or.inl (by decide))
  exact ⟨h1.1, h2.1, h1.2.2.2.2.2.1⟩
